import Mathlib

/-!
Verification of the stochastic simulation pipeline of dms_variants
(`simulate.py`): the variant generator `simulate_CodonVariantTable`, the
phenotype model `PhenotypeSimulator`, and the count simulator
`simulateSampleCounts`.

Randomness is embedded as an explicit stream of rational variates together
with a counter of variates consumed so far.  Every call the source makes
into the process-wide random generator is translated into taking the next
variate(s) from the stream; external library samplers (normal, poisson,
dirichlet, multinomial, choice, randint) are modelled as deterministic
functions of the variates they consume, faithfully recording HOW MANY
variates each call consumes and from which position.  No theorem below
depends on the distributional shape of a sampler, only on the data flow,
the consumption of randomness, and the control flow of the source.
-/

/-- The random generator state: the stream of variates and the number of
variates consumed so far. -/
structure Rng where
  f : ℕ → ℚ
  k : ℕ

/-- Consume one variate from the stream. -/
def Rng.next (r : Rng) : ℚ × Rng := (r.f r.k, ⟨r.f, r.k + 1⟩)

/-- Advance the stream by `n` variates (used for samplers whose output we
model deterministically but which consume `n` variates). -/
def Rng.skip (r : Rng) (n : ℕ) : Rng := ⟨r.f, r.k + n⟩

/-- Consume `n` variates and return them. -/
def drawK : ℕ → Rng → List ℚ × Rng
  | 0, r => ([], r)
  | n + 1, r =>
    let zsr := drawK n (r.next).2
    ((r.next).1 :: zsr.1, zsr.2)

/-- Model of drawing a uniform index in `[0, n)` from one variate
`z ∈ [0,1)`: scale and floor, clamped into range. -/
def idxModel (z : ℚ) (n : ℕ) : ℕ := min (n - 1) (Int.toNat (Rat.floor (z * n)))

/-- Floor of a nonnegative rational to a natural number. -/
def ratFloorNat (q : ℚ) : ℕ := Int.toNat (Rat.floor q)

/-- Decidable equality for `Except`, used to evaluate concrete runs. -/
instance exceptDecEq {ε α : Type} [DecidableEq ε] [DecidableEq α] :
    DecidableEq (Except ε α) := fun x y =>
  match x, y with
  | .error a, .error b =>
    if h : a = b then isTrue (by rw [h]) else isFalse (fun hc => h (by cases hc; rfl))
  | .ok a, .ok b =>
    if h : a = b then isTrue (by rw [h]) else isFalse (fun hc => h (by cases hc; rfl))
  | .error _, .ok _ => isFalse (fun hc => Except.noConfusion hc)
  | .ok _, .error _ => isFalse (fun hc => Except.noConfusion hc)

/-- Whether an `Except` value is an error. -/
def errored {α : Type} : Except String α → Bool
  | .error _ => true
  | .ok _ => false

/-- Modelled from the spec: the nucleotide alphabet `NTS`, imported by the
source from the constants module (which is outside the core). -/
def NTS : List Char := ['A', 'C', 'G', 'T']

/-- Modelled from the spec: the full codon alphabet `CODONS`, all length-3
strings over the nucleotide alphabet, imported by the source from the
constants module. -/
def CODONS : List String :=
  NTS.flatMap (fun a => NTS.flatMap (fun b => NTS.map (fun c => String.mk [a, b, c])))

/-- Modelled from the spec: the amino-acid alphabet including the stop
symbol, `AAS_WITHSTOP`, imported by the source from the constants module. -/
def AAS_WITHSTOP : List String :=
  ["A", "C", "D", "E", "F", "G", "H", "I", "K", "L",
   "M", "N", "P", "Q", "R", "S", "T", "V", "W", "Y", "*"]

/-! ## Mutation generator: `simulate_CodonVariantTable` -/

/-- A single-nucleotide substitution token
`f"{wt_nt}{igene}{mut_nt}"` with its 1-based genomic position. -/
structure NtSub where
  wt : Char
  pos : ℕ
  mutNt : Char
deriving DecidableEq

/-- One generated variant row of the barcode-variant table. -/
structure VariantRowOut where
  barcode : List Char
  substitutions : List NtSub
  library : String
  support : ℕ
deriving DecidableEq

/-- Per-library specification: keys `nvariants` and `avgmuts` of
`library_specs`. -/
structure LibSpec where
  name : String
  nvariants : ℕ
  avgmuts : ℚ
deriving DecidableEq

/-- One barcode: the join of `random.choices(NTS, k=bclen)`, one variate per
character. -/
def genBarcode : ℕ → Rng → List Char × Rng
  | 0, r => ([], r)
  | n + 1, r =>
    let c := NTS.getD (idxModel (r.next).1 NTS.length) 'A'
    let restr := genBarcode n (r.next).2
    (c :: restr.1, restr.2)

/-- The collision-retry loop of the source: redraw while the barcode is in
`existing_barcodes`.  Fuel bounds the retries (the source loops
unboundedly; running out of fuel models nontermination as an error). -/
def genFreshBarcode (bclen : ℕ) (existing : List (List Char)) :
    ℕ → Rng → Except String (List Char × Rng)
  | 0, _ => .error ("barcode retry fuel exhausted")
  | fuel + 1, r =>
    let bcr := genBarcode bclen r
    if bcr.1 ∈ existing then genFreshBarcode bclen existing fuel bcr.2
    else .ok bcr

/-- Model of `scipy.random.poisson(avgmuts)`: one variate consumed; the
surrogate value is `⌊avgmuts + z⌋`. -/
def poissonModel (avgmuts z : ℚ) : ℕ := ratFloorNat (avgmuts + z)

/-- Model of `random.randint(low, high)` (inclusive): one variate. -/
def randintModel (low high : ℕ) (z : ℚ) : ℕ := low + idxModel z (high - low + 1)

/-- Model of `random.sample(pool, k)`: selection without replacement, one
variate per selected element; elements are returned in selection order
(NOT sorted), as in Python.  Fails when `k` exceeds the population. -/
def sampleWoR (pool : List ℕ) : ℕ → Rng → Except String (List ℕ × Rng)
  | 0, r => .ok ([], r)
  | k + 1, r =>
    if pool.length = 0 then .error ("sample larger than population")
    else
      let i := idxModel (r.next).1 pool.length
      match sampleWoR (pool.eraseIdx i) k (r.next).2 with
      | .error e => .error e
      | .ok restr => .ok (pool.getD i 0 :: restr.1, restr.2)

/-- The inner token loop of the source:
`for i_nt, (wt_nt, mut_nt) in enumerate(zip(wtcodon, mutcodon)): ...`
emitting a token at genomic position `base + i_nt + 1` for every
nucleotide that differs. -/
def ntTokensAux (base : ℕ) : ℕ → List (Char × Char) → List NtSub
  | _, [] => []
  | i, (w, m) :: rest =>
    if w ≠ m then ⟨w, base + i + 1, m⟩ :: ntTokensAux base (i + 1) rest
    else ntTokensAux base (i + 1) rest

/-- Tokens of one codon substitution: wild-type codon is the slice
`geneseq[3*(icodon-1) : 3*icodon]`. -/
def codonNtTokens (geneseq : List Char) (icodon : ℕ) (mutcodon : List Char) : List NtSub :=
  ntTokensAux (3 * (icodon - 1)) 0 (List.zip ((geneseq.drop (3 * (icodon - 1))).take 3) mutcodon)

/-- The per-variant substitution construction: for every sampled codon (in
sampled order), choose a uniformly random codon different from the
wild-type codon (one variate) and append the nucleotide tokens. -/
def variantSubs (geneseq : List Char) : List ℕ → Rng → List NtSub × Rng
  | [], r => ([], r)
  | icodon :: rest, r =>
    let wtcodon := (geneseq.drop (3 * (icodon - 1))).take 3
    let candidates := CODONS.filter (fun c => c ≠ String.mk wtcodon)
    let mutcodon := (candidates.getD (idxModel (r.next).1 candidates.length) "").toList
    let toks := codonNtTokens geneseq icodon mutcodon
    let tailr := variantSubs geneseq rest (r.next).2
    (toks ++ tailr.1, tailr.2)

/-- The per-library variant loop (`for ivariant in range(nvariants)`):
barcode with retry, then variant call support, then the Poisson mutation
count, then the sampled codons and their substitutions. -/
def simLibLoop (geneseq : List Char) (bclen : ℕ) (lib : String) (avgmuts : ℚ)
    (support : ℕ × ℕ) (fuel : ℕ) :
    ℕ → List (List Char) → Rng → Except String (List VariantRowOut × Rng)
  | 0, _, r => .ok ([], r)
  | n + 1, existing, r =>
    match genFreshBarcode bclen existing fuel r with
    | .error e => .error e
    | .ok bcr =>
      let supp := randintModel support.1 support.2 ((bcr.2.next).1)
      let nmuts := poissonModel avgmuts (((bcr.2.next).2).next).1
      match sampleWoR (List.range' 1 (geneseq.length / 3)) nmuts (((bcr.2.next).2).next).2 with
      | .error e => .error e
      | .ok pickr =>
        let subsr := variantSubs geneseq pickr.1 pickr.2
        match simLibLoop geneseq bclen lib avgmuts support fuel n (bcr.1 :: existing) subsr.2 with
        | .error e => .error e
        | .ok rowsr => .ok (⟨bcr.1, subsr.1, lib, supp⟩ :: rowsr.1, rowsr.2)

/-- The library loop of `simulate_CodonVariantTable`, including the
per-library barcode-space check `10 * nvariants > len(NTS) ** bclen`. -/
def simAllLibs (geneseq : List Char) (bclen : ℕ) (support : ℕ × ℕ) (fuel : ℕ) :
    List LibSpec → Rng → Except String (List VariantRowOut × Rng)
  | [], r => .ok ([], r)
  | spec :: rest, r =>
    if 10 * spec.nvariants > NTS.length ^ bclen then
      .error ("barcode too short for nvariants")
    else
      match simLibLoop geneseq bclen spec.name spec.avgmuts support fuel spec.nvariants [] r with
      | .error e => .error e
      | .ok rowsr =>
        match simAllLibs geneseq bclen support fuel rest rowsr.2 with
        | .error e => .error e
        | .ok rows2r => .ok (rowsr.1 ++ rows2r.1, rows2r.2)

/-- Embedding of `simulate_CodonVariantTable`: validation of the library
specs and the gene length, then the per-library generation loop.  The
returned rows are the rows of the barcode-variant table, in generation
order. -/
def simulate_CodonVariantTable (geneseq : List Char) (bclen : ℕ)
    (library_specs : List LibSpec) (variant_call_support : ℕ × ℕ) (fuel : ℕ)
    (r : Rng) : Except String (List VariantRowOut) :=
  if library_specs.length < 1 then .error ("empty library_specs")
  else if geneseq.length % 3 ≠ 0 then .error ("length of geneseq not multiple of 3")
  else
    match simAllLibs geneseq bclen variant_call_support fuel library_specs r with
    | .error e => .error e
    | .ok rowsr => .ok rowsr.1

/-! ## Phenotype model: `PhenotypeSimulator` -/

/-- A key of the `muteffects` dict.  The source keys the dict by the
string `f"{wt_aa}{icodon + 1}{mut_aa}"`; since the amino-acid symbols are
single non-digit characters, that encoding is in bijection with the triple
below, which we use as the structural key. -/
structure MutKey where
  wtAA : String
  pos : ℕ
  mutAA : String
deriving DecidableEq

/-- Running cumulative sums, `scipy.cumsum`. -/
def cumsum (acc : ℚ) : List ℚ → List ℚ
  | [] => []
  | w :: ws => (acc + w) :: cumsum (acc + w) ws

/-- Embedding of `scipy.argmin` on a Boolean array (with `False < True`):
the index of the first minimal value, i.e. the first `false` when one
exists, and otherwise the first index, `0`. -/
def argminBool : List Bool → ℕ
  | [] => 0
  | false :: _ => 0
  | true :: rest => if false ∈ rest then argminBool rest + 1 else 0

/-- The mixture-component selection of the source:
`i = scipy.argmin(cumweights < scipy.random.rand())`. -/
def selectComponent (cumweights : List ℚ) (u : ℚ) : ℕ :=
  argminBool (cumweights.map (fun c => decide (c < u)))

/-- One draw from the compound normal: one uniform variate selects the
Gaussian component via `selectComponent`, one variate is the normal draw
from that component. -/
def mixtureDraw (cw means sds : List ℚ) (r : Rng) : ℚ × Rng :=
  let u := (r.next).1
  let i := selectComponent cw u
  let rz := ((r.next).2).next
  (means.getD i 0 + sds.getD i 0 * rz.1, rz.2)

/-- The inner loop of `PhenotypeSimulator.__init__` for one codon: for
every `mut_aa` in `AAS_WITHSTOP` (passed as `aas`) differing from the
wild-type amino acid, assign the stop effect to stop mutations and
otherwise draw the effect from the compound normal. -/
def muteffectsForCodon (stop_effect : ℚ) (cw means sds : List ℚ) (wt : String) (pos : ℕ) :
    List String → Rng → List (MutKey × ℚ) × Rng
  | [], r => ([], r)
  | a :: rest, r =>
    if a = wt then muteffectsForCodon stop_effect cw means sds wt pos rest r
    else
      let effR := if a = "*" then (stop_effect, r) else mixtureDraw cw means sds r
      let tailR := muteffectsForCodon stop_effect cw means sds wt pos rest effR.2
      ((⟨wt, pos, a⟩, effR.1) :: tailR.1, tailR.2)

/-- The outer loop of `PhenotypeSimulator.__init__` over codon positions
(`icodon` is the 0-based position, the key position is `icodon + 1`). -/
def muteffectsBuild (stop_effect : ℚ) (cw means sds : List ℚ) (codonToAA : String → String) :
    List String → ℕ → Rng → List (MutKey × ℚ) × Rng
  | [], _, r => ([], r)
  | codon :: rest, icodon, r =>
    let block := muteffectsForCodon stop_effect cw means sds (codonToAA codon) (icodon + 1)
        AAS_WITHSTOP r
    let tailB := muteffectsBuild stop_effect cw means sds codonToAA rest (icodon + 1) block.2
    (block.1 ++ tailB.1, tailB.2)

/-- Embedding of the `muteffects` construction of
`PhenotypeSimulator.__init__`: the wild-type gene is given by its codon
list, the genetic code by the collaborator map `codonToAA`, and
`norm_weights` is the list of `(weight, mean, sd)` triples. -/
def PhenotypeSimulator.mkMuteffects (geneCodons : List String) (codonToAA : String → String)
    (norm_weights : List (ℚ × ℚ × ℚ)) (stop_effect : ℚ) (r : Rng) :
    List (MutKey × ℚ) × Rng :=
  let weights := norm_weights.map (fun t => t.1)
  let means := norm_weights.map (fun t => t.2.1)
  let sds := norm_weights.map (fun t => t.2.2)
  muteffectsBuild stop_effect (cumsum 0 weights) means sds codonToAA geneCodons 0 r

/-- Embedding of `PhenotypeSimulator.latentPhenotype`: wild-type baseline
plus the sum of the stored effects of the amino-acid
substitutions; a missing key is a lookup error (`none`), as the Python
dict access raises `KeyError`. -/
def PhenotypeSimulator.latentPhenotype {α : Type} [AddCommMonoid α]
    (wt_latent : α) (muteffects : List (MutKey × α)) (aaSubs : List MutKey) : Option α :=
  (aaSubs.mapM (fun m => muteffects.lookup m)).map (fun effs => wt_latent + effs.sum)

/-- Embedding of `PhenotypeSimulator.latentPhenotype` as a state-passing
method: the Python method may in principle mutate `self.muteffects`, so
the embedding returns the table alongside the result; the source only
reads the table, so the returned table is the argument unchanged. -/
def PhenotypeSimulator.latentPhenotypeSt {α : Type} [AddCommMonoid α]
    (wt_latent : α) (muteffects : List (MutKey × α)) (aaSubs : List MutKey) :
    Option α × List (MutKey × α) :=
  (PhenotypeSimulator.latentPhenotype wt_latent muteffects aaSubs, muteffects)

/-- Embedding of the static `PhenotypeSimulator.latentToObservedPhenotype`:
`1 / (1 + exp(-latent - 3))`. -/
noncomputable def PhenotypeSimulator.latentToObservedPhenotype (latent : ℝ) : ℝ :=
  1 / (1 + Real.exp (-latent - 3))

/-- Embedding of `PhenotypeSimulator.observedPhenotype`: the sigmoid
transform applied to the latent phenotype of the variant. -/
noncomputable def PhenotypeSimulator.observedPhenotype (wt_latent : ℝ)
    (muteffects : List (MutKey × ℝ)) (aaSubs : List MutKey) : Option ℝ :=
  (PhenotypeSimulator.latentPhenotype wt_latent muteffects aaSubs).map
    PhenotypeSimulator.latentToObservedPhenotype

/-- Embedding of `PhenotypeSimulator.observedPhenotype` as a state-passing
method, like `PhenotypeSimulator.latentPhenotypeSt`. -/
noncomputable def PhenotypeSimulator.observedPhenotypeSt (wt_latent : ℝ)
    (muteffects : List (MutKey × ℝ)) (aaSubs : List MutKey) :
    Option ℝ × List (MutKey × ℝ) :=
  (PhenotypeSimulator.observedPhenotype wt_latent muteffects aaSubs, muteffects)

/-! ## Selection/count simulator: `simulateSampleCounts` -/

/-- A codon-substitution token `f"{wtcodon}{site}{mutcodon}"` of a
space-joined `codon_substitutions` string of a variant.  The regex of the source
`^[ATGC]{3}(?P<site>\d+)[ATGC]{3}$` recovers the `site` field. -/
structure Mut where
  wt : String
  site : ℕ
  mutc : String
deriving DecidableEq

/-- A row of `variants.barcode_variant_df` as read by the simulator. -/
structure BVRow where
  library : String
  barcode : String
  codonSubs : List Mut
deriving DecidableEq

/-- A variant record as handed to `phenotype_func` (the columns present
when the `phenotype` column is computed). -/
structure VRow where
  library : String
  barcode : String
  codonSubs : List Mut
  aaSubs : List MutKey
deriving DecidableEq

/-- A row after phenotype attachment (the simulator keeps only
`library`, `barcode` and `phenotype`). -/
structure PhRow where
  library : String
  barcode : String
  phenotype : ℚ
deriving DecidableEq

/-- A row after the pre-selection branch: pre-selection frequency, count,
and the pre-selection sample name. -/
structure PreRow where
  library : String
  barcode : String
  phenotype : ℚ
  pre_freq : ℚ
  count : ℕ
  sample : String
deriving DecidableEq

/-- A post-selection row with every intermediate column that the
assign chain of the source creates, before the final projection to four columns. -/
structure FullPostRow where
  library : String
  barcode : String
  sample : String
  bottleneck_freq : ℚ
  noise : ℚ
  post_freq_nonorm : ℚ
  post_freq : ℚ
  count : ℕ
deriving DecidableEq

/-- A row of the returned long-format count table. -/
structure CountRow where
  library : String
  barcode : String
  sample : String
  count : ℕ
deriving DecidableEq

/-- Modelled from the spec: the read-only accessors of the external
variant-storage collaborator (its class is outside the core): the
barcode-variant rows, the ordered library names, the ordered codon sites,
and the site-to-wild-type-codon map. -/
structure Variants where
  rows : List BVRow
  libraries : List String
  sites : List ℕ
  codons : ℕ → String

/-- A post-selection sample specification: the key set of the Python dict
plus the three configuration values (used only when the key set is the
required one). -/
structure PostSpec where
  keys : List String
  total_count : ℕ
  noise : ℚ
  bottleneck : Option ℕ
deriving DecidableEq

/-- The `pre_sample` argument: a counts DataFrame (rows plus its column
names), a simulation spec dict (its key set plus the two values), or any
other object. -/
inductive PreSample where
  | df (rows : List (String × String × ℕ)) (cols : List String)
  | dict (keys : List String) (uniformity : ℚ) (total_count : ℕ)
  | other
deriving DecidableEq

/-- Python set equality of two key lists. -/
def sameKeySet (a b : List String) : Bool :=
  a.all (fun x => b.contains x) && b.all (fun x => a.contains x)

/-- The required keys of each post-selection sample spec. -/
def postReqKeys : List String := ["bottleneck", "noise", "total_count"]

/-- The required keys of a simulated `pre_sample` spec. -/
def preReqKeys : List String := ["uniformity", "total_count"]

/-- The internal column names that no post-selection sample may use. -/
def internalCols : List String :=
  ["library", "barcode", "sample", "count", "pre_freq", "phenotype"]

/-- Embedding of the internal `_add_variant_errors`: with probability
`variant_error_rate` (one uniform variate), either add one random
substitution at an unmutated site (unconditionally when the variant has no
mutation, otherwise on a second uniform variate below 1/2) or remove one
randomly chosen substitution.  The remove branch reproduces the source
exactly: `muts = muts.pop(scipy.random.randint(0, len(muts)))` rebinds
`muts` to the POPPED TOKEN and returns it, so the returned substitution
string is that single token. -/
def addVariantErrors (sites : List ℕ) (codons : ℕ → String) (variant_error_rate : ℚ)
    (subs : List Mut) (r : Rng) : Except String (List Mut) × Rng :=
  let r1 := (r.next).2
  if (r.next).1 < variant_error_rate then
    if subs.length = 0 ∨ 2 * (r1.next).1 < 1 then
      -- add branch; the second uniform is consumed only when `muts` is nonempty
      let r2 := if subs.length = 0 then r1 else (r1.next).2
      let mutatedsites := subs.map (fun m => m.site)
      let unmutated := sites.filter (fun s => ¬ mutatedsites.contains s)
      if unmutated.length = 0 then (.error ("variant already has all mutations"), r2)
      else
        let errorsite := unmutated.getD (idxModel (r2.next).1 unmutated.length) 0
        let wtc := codons errorsite
        let candidates := CODONS.filter (fun c => c ≠ wtc)
        let r3 := (r2.next).2
        let mutc := candidates.getD (idxModel (r3.next).1 candidates.length) ""
        (.ok (subs ++ [⟨wtc, errorsite, mutc⟩]), (r3.next).2)
    else
      -- remove branch: the popped token becomes the whole result
      let r2 := (r1.next).2
      let idx := idxModel (r2.next).1 subs.length
      (.ok [subs.getD idx ⟨"", 0, ""⟩], (r2.next).2)
  else (.ok subs, r1)

/-- The error-injection / phenotype-attachment stage (the first assign
chain of the source): apply `addVariantErrors` to every row in order,
recompute amino-acid substitutions with the translation
function of the collaborator, and attach the phenotype. -/
def injectErrors (sites : List ℕ) (codons : ℕ → String)
    (codonToAAMuts : List Mut → List MutKey) (phenotype_func : VRow → ℚ)
    (variant_error_rate : ℚ) :
    List BVRow → Rng → Except String (List PhRow) × Rng
  | [], r => (.ok [], r)
  | row :: rest, r =>
    let ar := addVariantErrors sites codons variant_error_rate row.codonSubs r
    match ar.1 with
    | .error e => (.error e, ar.2)
    | .ok subs =>
      let ph := phenotype_func ⟨row.library, row.barcode, subs, codonToAAMuts subs⟩
      let tr := injectErrors sites codons codonToAAMuts phenotype_func variant_error_rate rest ar.2
      match tr.1 with
      | .error e => (.error e, tr.2)
      | .ok tail => (.ok (⟨row.library, row.barcode, ph⟩ :: tail), tr.2)

/-- Lexicographic comparison on (library, barcode), used to embed
`sort_values` on library and barcode. -/
def pairLe (a b : String × String) : Bool :=
  if a.1 = b.1 then a.2 ≤ b.2 else a.1 ≤ b.1

/-- Insertion into a (library, barcode)-sorted list of indexed rows. -/
def insertPair (x : ℕ × String × String) :
    List (ℕ × String × String) → List (ℕ × String × String)
  | [] => [x]
  | y :: ys => if pairLe x.2 y.2 then x :: y :: ys else y :: insertPair x ys

/-- Stable sort of indexed (library, barcode) rows, embedding
`sort_values` followed by `reset_index()` (which materializes the original
row positions as an extra `index` column). -/
def sortPairsIndexed (rows : List (String × String)) : List (ℕ × String × String) :=
  rows.enum.foldr insertPair []

/-- The column-wise `.any()` of the element-wise comparison
`df1 != df2` of two equally-labeled DataFrames with columns
`index`, `library`, `barcode`: one Boolean per column.  Differing shapes
raise, as pandas refuses to compare differently-labeled frames. -/
def neqAnySeries (a b : List (ℕ × String × String)) : Except String (List Bool) :=
  if a.length ≠ b.length then
    .error ("can only compare identically-labeled DataFrame objects")
  else
    .ok [decide (a.map (fun t => t.1) ≠ b.map (fun t => t.1)),
         decide (a.map (fun t => t.2.1) ≠ b.map (fun t => t.2.1)),
         decide (a.map (fun t => t.2.2) ≠ b.map (fun t => t.2.2))]

/-- Asking Python for the truth value of a pandas Series: defined only for
a one-element Series, ambiguous otherwise. -/
def seriesTruth : List Bool → Except String Bool
  | [b] => .ok b
  | _ => .error ("the truth value of a Series is ambiguous")

/-- The `pre_sample`-as-DataFrame branch of the source: check the required
columns, then evaluate `if (sorted1 != sorted2).any():` — the truth test
of a three-element Series, which always raises; were it to pass, the next
line `barcode_variant_df.groupby(library).rename(total_count)` would
raise an AttributeError, since a DataFrame group-by object has no rename
method.  No path of this branch returns normally. -/
def preBranchDF (dfRows : List (String × String × ℕ)) (dfCols : List String)
    (bvRows : List PhRow) (r : Rng) : Except String (List PreRow) × Rng :=
  if ¬ (["library", "barcode", "count"].all (fun c => dfCols.contains c)) then
    (.error ("pre_sample lacks cols library, barcode, count"), r)
  else
    let s1 := sortPairsIndexed (dfRows.map (fun t => (t.1, t.2.1)))
    let s2 := sortPairsIndexed (bvRows.map (fun t => (t.library, t.barcode)))
    match neqAnySeries s1 s2 with
    | .error e => (.error e, r)
    | .ok series =>
      match seriesTruth series with
      | .error e => (.error e, r)
      | .ok true =>
        (.error ("pre_sample DataFrame lacks required library and barcode columns"), r)
      | .ok false =>
        (.error ("DataFrameGroupBy object has no attribute rename"), r)

/-- Model of `scipy.random.dirichlet(uniformity * ones(k))`: one gamma
variate per coordinate, normalized.  The concentration shapes the
distribution only, so the surrogate normalizes the raw variates. -/
def dirichletModel (zs : List ℚ) : List ℚ :=
  let s := zs.sum
  zs.map (fun g => g / s)

/-- Model of `scipy.random.multinomial(n, p)`: consumes one variate per
cell (via `Rng.skip`); the surrogate counts are `⌊p_i * n⌋`. -/
def multinomialModel (n : ℕ) (p : List ℚ) : List ℕ :=
  p.map (fun q => ratFloorNat (q * n))

/-- The simulated pre-selection branch for one library: Dirichlet
frequencies, then multinomial counts, then the pre-selection sample
name. -/
def preSimLib (pre_sample_name : String) (uniformity : ℚ) (total_count : ℕ)
    (rows : List PhRow) (lib : String) (r : Rng) : List PreRow × Rng :=
  let libRows := rows.filter (fun x => x.library = lib)
  let kcells := libRows.length
  let gsr := drawK kcells r
  let freqs := dirichletModel (gsr.1.map (fun g => uniformity * g))
  let counts := multinomialModel total_count freqs
  (((libRows.zip freqs).zip counts).map
      (fun t => ⟨t.1.1.library, t.1.1.barcode, t.1.1.phenotype, t.1.2, t.2, pre_sample_name⟩),
   gsr.2.skip kcells)

/-- The simulated pre-selection branch over all libraries, in the
library order of the collaborator (`pd.concat(pre_df_list)`). -/
def preDictAll (pre_sample_name : String) (uniformity : ℚ) (total_count : ℕ)
    (rows : List PhRow) : List String → Rng → List PreRow × Rng
  | [], r => ([], r)
  | lib :: libs, r =>
    let br := preSimLib pre_sample_name uniformity total_count rows lib r
    let tr := preDictAll pre_sample_name uniformity total_count rows libs br.2
    (br.1 ++ tr.1, tr.2)

/-- The internal `_bottleneck_freqs`: identity for a null bottleneck,
otherwise a multinomial resample of size `bottleneck` renormalized by
`bottleneck` (one variate per cell). -/
def bottleneckFreqs (pre_freqs : List ℚ) (bottleneck : Option ℕ) (r : Rng) :
    List ℚ × Rng :=
  match bottleneck with
  | none => (pre_freqs, r)
  | some b => ((multinomialModel b pre_freqs).map (fun c => (c : ℚ) / b),
               r.skip pre_freqs.length)

/-- One post-selection block (one library, one sample): the
assign chain of the source.  Python evaluates the `noise=clip(normal(1,
noise_sd), 0, None)` argument before `assign` runs any column
lambda, so the single normal variate for the noise column is consumed
first; the one scalar is broadcast to every row of the library.  Then the
bottleneck resample, the unnormalized and normalized post-selection
frequencies, and the final multinomial counts. -/
def postLibBlock (rows : List PreRow) (lib sampleName : String) (d : PostSpec)
    (r : Rng) : List FullPostRow × Rng :=
  let libRows := rows.filter (fun x => x.library = lib)
  let kcells := libRows.length
  let nz := (r.next).1
  let noiseVal := if 1 + d.noise * nz < 0 then 0 else 1 + d.noise * nz
  let bfr := bottleneckFreqs (libRows.map (fun x => x.pre_freq)) d.bottleneck (r.next).2
  let nonorm := (libRows.zip bfr.1).map (fun t => t.2 * t.1.phenotype * noiseVal)
  let s := nonorm.sum
  let pf := nonorm.map (fun q => q / s)
  let counts := multinomialModel d.total_count pf
  (((((libRows.zip bfr.1).zip nonorm).zip pf).zip counts).map
      (fun t => ⟨t.1.1.1.1.library, t.1.1.1.1.barcode, sampleName,
                 t.1.1.1.2, noiseVal, t.1.1.2, t.1.2, t.2⟩),
   bfr.2.skip kcells)

/-- The sample loop for one library: samples in sorted-name order; each
iteration first validates the key set of the sample, then runs the block. -/
def postLoopSamples (rows : List PreRow) (lib : String) :
    List (String × PostSpec) → Rng → Except String (List FullPostRow) × Rng
  | [], r => (.ok [], r)
  | (s, d) :: rest, r =>
    if ¬ sameKeySet d.keys postReqKeys then
      (.error ("post_samples " ++ s ++ " lacks required keys"), r)
    else
      let br := postLibBlock rows lib s d r
      let tr := postLoopSamples rows lib rest br.2
      match tr.1 with
      | .error e => (.error e, tr.2)
      | .ok tail => (.ok (br.1 ++ tail), tr.2)

/-- The outer `itertools.product(libraries, sorted(post_samples.items()))`
loop, library-major. -/
def postLoopLibs (rows : List PreRow) (samples : List (String × PostSpec)) :
    List String → Rng → Except String (List FullPostRow) × Rng
  | [], r => (.ok [], r)
  | lib :: libs, r =>
    let sr := postLoopSamples rows lib samples r
    match sr.1 with
    | .error e => (.error e, sr.2)
    | .ok block =>
      let tr := postLoopLibs rows samples libs sr.2
      match tr.1 with
      | .error e => (.error e, tr.2)
      | .ok tail => (.ok (block ++ tail), tr.2)

/-- Insertion into a name-sorted sample list. -/
def insertByName (x : String × PostSpec) :
    List (String × PostSpec) → List (String × PostSpec)
  | [] => [x]
  | y :: ys => if x.1 ≤ y.1 then x :: y :: ys else y :: insertByName x ys

/-- Embedding of `sorted(post_samples.items())` (sort by sample name). -/
def sortByName : List (String × PostSpec) → List (String × PostSpec)
  | [] => []
  | x :: xs => insertByName x (sortByName xs)

/-- Embedding of `simulateSampleCounts`: the name-collision check, the
error-injection and phenotype stage, the pre-selection branch, the
internal-column-name check on post-sample names, and the post-selection
product loop.  The result is the long-format count table (pre-selection
block first, then the post blocks) together with the final random-stream
state, whose counter records how many variates the call consumed. -/
def simulateSampleCounts (variants : Variants) (codonToAAMuts : List Mut → List MutKey)
    (phenotype_func : VRow → ℚ) (variant_error_rate : ℚ) (pre_sample : PreSample)
    (post_samples : List (String × PostSpec)) (pre_sample_name : String)
    (r0 : Rng) : Except String (List CountRow) × Rng :=
  let postNames := post_samples.map (fun sd => sd.1)
  if postNames.contains pre_sample_name then
    (.error ("pre_sample_name is in post_samples"), r0)
  else
    let ir := injectErrors variants.sites variants.codons codonToAAMuts phenotype_func
        variant_error_rate variants.rows r0
    match ir.1 with
    | .error e => (.error e, ir.2)
    | .ok phRows =>
      let pr : Except String (List PreRow) × Rng :=
        match pre_sample with
        | .df dfRows dfCols => preBranchDF dfRows dfCols phRows ir.2
        | .dict keys u t =>
          if ¬ sameKeySet keys preReqKeys then
            (.error ("pre_sample lacks required keys"), ir.2)
          else
            let dr := preDictAll pre_sample_name u t phRows variants.libraries ir.2
            (.ok dr.1, dr.2)
        | .other => (.error ("pre_sample not DataFrame / dict"), ir.2)
      match pr.1 with
      | .error e => (.error e, pr.2)
      | .ok preRows =>
        match internalCols.find? (fun c => postNames.contains c) with
        | some c => (.error ("post_samples cannot have key " ++ c), pr.2)
        | none =>
          let preCountRows : List CountRow :=
            preRows.map (fun x => ⟨x.library, x.barcode, x.sample, x.count⟩)
          let plr := postLoopLibs preRows (sortByName post_samples) variants.libraries pr.2
          match plr.1 with
          | .error e => (.error e, plr.2)
          | .ok fullRows =>
            (.ok (preCountRows ++ fullRows.map
                (fun x => ⟨x.library, x.barcode, x.sample, x.count⟩)), plr.2)

/-- Concrete variate stream for the C1 run: the second uniform is 3/4
(so the remove branch is taken), every other variate is 0. -/
def c1f : ℕ → ℚ := fun n => if n = 1 then 3/4 else 0

/-- Concrete variate stream for the C2 run: the first variate (the single
normal draw of the noise column) is 1/4; all later variates are 7, so a
per-variant draw would have produced a different factor for the second
variant. -/
def c2f : ℕ → ℚ := fun n => if n = 0 then 1/4 else 7

/-- An all-zero variate stream. -/
def zf : ℕ → ℚ := fun _ => 0

/-- The variant set for the C3 run: one library with two barcodes. -/
def c3variants : Variants := ⟨[⟨"L", "AA", []⟩, ⟨"L", "AC", []⟩], ["L"], [], fun _ => "AAA"⟩

/-- Concrete variate stream for the C4 run: variate 4 is 1/2 (so
`random.sample` picks codon 2 before codon 1), the rest are 0. -/
def c4f : ℕ → ℚ := fun n => if n = 4 then 1/2 else 0

/-- The variant set for the C5 run: one library with one barcode. -/
def c5variants : Variants := ⟨[⟨"L", "AA", []⟩], ["L"], [], fun _ => "AAA"⟩

/-- The key list the `muteffects` construction is expected to produce:
for every codon position (0-based `i`) and every amino acid differing
from the wild type at that position, one key at position `i + 1`. -/
def keysSpec (codonToAA : String → String) : List String → ℕ → List MutKey
  | [], _ => []
  | c :: rest, i =>
    (AAS_WITHSTOP.filter (fun a => a ≠ codonToAA c)).map
        (fun a => ⟨codonToAA c, i + 1, a⟩)
      ++ keysSpec codonToAA rest (i + 1)

/-! ## Claim theorems -/


/-- C1: false on the code.  A variant with exactly one codon substitution,
selected for perturbation (first uniform 0 < rate 1) with second uniform
3/4 ≥ 0.5, takes the remove branch; the claim demands the original list
minus one element (here the empty list), but the line
`muts = muts.pop(...)` of the source rebinds `muts` to the popped token and returns it,
so the result is the one-token list — the substitution count is unchanged
(1, not 0): in general a remove leaves exactly one substitution, not
n - 1. -/
theorem C1_remove_branch_returns_popped_token :
    (addVariantErrors [1, 2] (fun _ => "AAA") 1 [⟨"AAA", 1, "CCC"⟩] ⟨c1f, 0⟩).1
      = Except.ok [⟨"AAA", 1, "CCC"⟩] ∧
    ((addVariantErrors [1, 2] (fun _ => "AAA") 1 [⟨"AAA", 1, "CCC"⟩] ⟨c1f, 0⟩).1
      ≠ Except.ok []) :=
  ⟨by with_unfolding_all rfl, by with_unfolding_all decide⟩


/-- C2: false on the code.  For a library of two variants and configured
noise standard deviation 1, the source draws ONE normal variate for the
whole (library, sample) block — `scipy.random.normal(1, noise)` with no
size — and broadcasts it, so both variants get the identical factor 5/4
(from the single variate 1/4) even though the next stream variate, 7,
differs; only one variate is consumed for noise (the final counter is 3:
one noise draw plus the two multinomial cells).  The second half of the
claim does hold: with configured noise 0 the factor is exactly 1. -/
theorem C2_noise_single_draw_per_library :
    (postLibBlock [⟨"L", "AA", 1, 1/2, 5, "pre"⟩, ⟨"L", "AC", 1, 1/2, 5, "pre"⟩] "L" "s"
        ⟨postReqKeys, 10, 1, none⟩ ⟨c2f, 0⟩).1.map (fun x => x.noise) = [5/4, 5/4] ∧
    (postLibBlock [⟨"L", "AA", 1, 1/2, 5, "pre"⟩, ⟨"L", "AC", 1, 1/2, 5, "pre"⟩] "L" "s"
        ⟨postReqKeys, 10, 0, none⟩ ⟨c2f, 0⟩).1.map (fun x => x.noise) = [1, 1] ∧
    (postLibBlock [⟨"L", "AA", 1, 1/2, 5, "pre"⟩, ⟨"L", "AC", 1, 1/2, 5, "pre"⟩] "L" "s"
        ⟨postReqKeys, 10, 1, none⟩ ⟨c2f, 0⟩).2.k = 3 :=
  ⟨by with_unfolding_all rfl, by with_unfolding_all rfl, by with_unfolding_all rfl⟩



/-- C3: false on the code.  With a pre-sample DataFrame whose
(library, barcode) pairs are exactly those of the variant table (counts 3
and 1), the claim demands success with frequencies count/total; the code
instead raises: the shape check asks Python for the truth value of the
three-element Series `(df1 != df2).any()`, which is always ambiguous, so
every DataFrame `pre_sample` fails. -/
theorem C3_dataframe_pre_sample_always_raises :
    (simulateSampleCounts c3variants (fun _ => []) (fun _ => 1) 0
        (.df [("L", "AA", 3), ("L", "AC", 1)] ["library", "barcode", "count"])
        [] "pre-selection" ⟨zf, 0⟩).1
      = Except.error ("the truth value of a Series is ambiguous") :=
  by with_unfolding_all rfl


/-- C4: counterexample.  A full run of `simulate_CodonVariantTable` on the
two-codon gene AAACCC in which the mutated codons are sampled in the
order [2, 1] produces the substitution tokens at genomic positions
[4, 5, 6, 3] — not in increasing position order. -/
theorem C4_counterexample_tokens_not_sorted :
    (simulate_CodonVariantTable ("AAACCC".toList) 2 [⟨"L", 1, 2⟩] (1, 1) 5 ⟨c4f, 0⟩).map
        (fun rows => rows.map (fun v => v.substitutions.map (fun t => t.pos)))
      = Except.ok [[4, 5, 6, 3]] ∧ ¬ List.Pairwise (· < ·) [4, 5, 6, 3] :=
  ⟨by with_unfolding_all rfl, by decide⟩


/-- C5: counterexample.  With a well-formed simulated pre-sample and one
post-sample spec missing the `bottleneck` key, the call does fail with the
post-sample key error, but only after consuming 3 variates (one
error-injection uniform, one pre-selection Dirichlet variate, one
pre-selection multinomial variate) — not before any random draw as the
claim states. -/
theorem C5_counterexample_draws_before_key_error :
    (simulateSampleCounts c5variants (fun _ => []) (fun _ => 1) 0
        (.dict ["uniformity", "total_count"] 5 10)
        [("s1", ⟨["noise", "total_count"], 10, 0, none⟩)] "pre-selection" ⟨zf, 0⟩).1
      = Except.error ("post_samples s1 lacks required keys") ∧
    (simulateSampleCounts c5variants (fun _ => []) (fun _ => 1) 0
        (.dict ["uniformity", "total_count"] 5 10)
        [("s1", ⟨["noise", "total_count"], 10, 0, none⟩)] "pre-selection" ⟨zf, 0⟩).2.k = 3 ∧
    (3 : ℕ) ≠ 0 :=
  ⟨by with_unfolding_all rfl, by with_unfolding_all rfl, by decide⟩

/-- On an all-true Boolean array, `scipy.argmin` returns the first index,
0. -/
theorem argminBool_eq_zero_of_all_true (l : List Bool) (h : ∀ b ∈ l, b = true) :
    argminBool l = 0 := by
  cases l with
  | nil => rfl
  | cons b rest =>
    cases b with
    | false => exact absurd (h false (by simp)) (by simp)
    | true =>
      simp only [argminBool]
      rw [if_neg]
      intro hc
      exact absurd (h false (List.mem_cons_of_mem _ hc)) (by simp)

/-- On a Boolean array containing a `false`, `scipy.argmin` returns the
index of the first `false`. -/
theorem argminBool_eq_of_first_false (l : List Bool) :
    ∀ i, i < l.length → l.getD i true = false →
    (∀ j, j < i → l.getD j true = true) → argminBool l = i := by
  induction l with
  | nil => intro i h; simp at h
  | cons b rest ih =>
    intro i hi hfalse hprior
    cases i with
    | zero =>
      have hb : b = false := by simpa using hfalse
      subst hb
      rfl
    | succ j =>
      have hb : b = true := by simpa using hprior 0 (Nat.succ_pos j)
      subst hb
      have hrest : rest.getD j true = false := by simpa using hfalse
      have hjlen : j < rest.length := by simpa using hi
      have hmem : false ∈ rest := by
        rw [List.getD_eq_getElem rest true hjlen] at hrest
        rw [← hrest]
        exact List.getElem_mem hjlen
      simp only [argminBool, if_pos hmem]
      have := ih j hjlen hrest
        (fun k hk => by simpa using hprior (k + 1) (Nat.succ_lt_succ hk))
      omega

/-- C10: in the mixture-component selection
`i = scipy.argmin(cumweights < scipy.random.rand())` of
`PhenotypeSimulator.__init__`, the chosen index is the least `i` with
`cumweights[i] >= draw`; when the draw exceeds every cumulative weight
(possible when the weights sum to less than 1), the FIRST component,
index 0, is selected. -/
theorem C10_selectComponent_least_geq_else_first (cw : List ℚ) (u : ℚ) :
    (∀ i, i < cw.length → u ≤ cw.getD i 0 → (∀ j, j < i → cw.getD j 0 < u) →
        selectComponent cw u = i) ∧
    ((∀ i, i < cw.length → cw.getD i 0 < u) → selectComponent cw u = 0) := by
  constructor
  · intro i hi hgeq hprior
    apply argminBool_eq_of_first_false
    · simpa using hi
    · have heq : (cw.map (fun c => decide (c < u))).getD i true
          = decide (cw.getD i 0 < u) := by
        rw [List.getD_eq_getElem _ _ (by simpa using hi), List.getElem_map,
            List.getD_eq_getElem _ _ hi]
      rw [heq]
      simpa using not_lt.mpr hgeq
    · intro j hj
      have hjlen : j < cw.length := lt_trans hj hi
      have heq : (cw.map (fun c => decide (c < u))).getD j true
          = decide (cw.getD j 0 < u) := by
        rw [List.getD_eq_getElem _ _ (by simpa using hjlen), List.getElem_map,
            List.getD_eq_getElem _ _ hjlen]
      rw [heq]
      simpa using hprior j hj
  · intro hall
    apply argminBool_eq_zero_of_all_true
    intro b hb
    rcases List.mem_map.mp hb with ⟨c, hc, rfl⟩
    rcases List.mem_iff_getElem.mp hc with ⟨i, hilen, rfl⟩
    have := hall i hilen
    rw [List.getD_eq_getElem _ _ hilen] at this
    simpa using this

/-- Witness for C10: with cumulative weights [1/2, 1], the draw 3/4
selects index 1 (the least index whose cumulative weight reaches the
draw), and the out-of-range draw 2 selects index 0. -/
theorem C10_witness :
    selectComponent [1/2, 1] (3/4) = 1 ∧ selectComponent [1/2, 1] 2 = 0 :=
  ⟨(C10_selectComponent_least_geq_else_first [1/2, 1] (3/4)).1 1 (by decide)
      (by with_unfolding_all decide)
      (fun j hj => by
        have hj0 : j = 0 := by omega
        subst hj0
        with_unfolding_all decide),
   (C10_selectComponent_least_geq_else_first [1/2, 1] 2).2
      (fun i hi => by
        have h2 : i < 2 := by simpa using hi
        have h01 : i = 0 ∨ i = 1 := by omega
        rcases h01 with rfl | rfl <;> with_unfolding_all decide)⟩

/-- C7: the sigmoid transform equals `1 / (1 + exp(-latent - 3))` for
every real latent value, is strictly increasing, and
`observedPhenotype` is its composition with `latentPhenotype` for every
variant record. -/
theorem C7_sigmoid_formula_monotone_compose :
    (∀ t : ℝ, PhenotypeSimulator.latentToObservedPhenotype t
        = 1 / (1 + Real.exp (-t - 3))) ∧
    (∀ x y : ℝ, x < y → PhenotypeSimulator.latentToObservedPhenotype x
        < PhenotypeSimulator.latentToObservedPhenotype y) ∧
    (∀ (wt_latent : ℝ) (m : List (MutKey × ℝ)) (aaSubs : List MutKey),
      PhenotypeSimulator.observedPhenotype wt_latent m aaSubs
        = (PhenotypeSimulator.latentPhenotype wt_latent m aaSubs).map
            PhenotypeSimulator.latentToObservedPhenotype) := by
  refine ⟨fun t => rfl, ?_, fun wt m s => rfl⟩
  intro x y hxy
  unfold PhenotypeSimulator.latentToObservedPhenotype
  have hexp : Real.exp (-y - 3) < Real.exp (-x - 3) := Real.exp_lt_exp.mpr (by linarith)
  have hpos : 0 < 1 + Real.exp (-y - 3) := by positivity
  exact one_div_lt_one_div_of_lt hpos (by linarith)

/-- Witness for C7 at concrete inputs: the formula at latent 0, strict
monotonicity from 0 to 1, and the composition on the empty table. -/
theorem C7_witness :
    PhenotypeSimulator.latentToObservedPhenotype 0 = 1 / (1 + Real.exp (-0 - 3)) ∧
    PhenotypeSimulator.latentToObservedPhenotype 0
      < PhenotypeSimulator.latentToObservedPhenotype 1 ∧
    PhenotypeSimulator.observedPhenotype 1 [] [] =
      (PhenotypeSimulator.latentPhenotype (1 : ℝ) [] []).map
        PhenotypeSimulator.latentToObservedPhenotype :=
  ⟨C7_sigmoid_formula_monotone_compose.1 0,
   C7_sigmoid_formula_monotone_compose.2.1 0 1 (by norm_num),
   C7_sigmoid_formula_monotone_compose.2.2 1 [] []⟩


/-- The keys produced by the per-codon loop: one per amino acid of the
alphabet differing from the wild type, in alphabet order, independent of
the drawn effects. -/
theorem muteffectsForCodon_keys (se : ℚ) (cw means sds : List ℚ) (wt : String) (pos : ℕ) :
    ∀ (aas : List String) (r : Rng),
    (muteffectsForCodon se cw means sds wt pos aas r).1.map Prod.fst
      = (aas.filter (fun a => a ≠ wt)).map (fun a => ⟨wt, pos, a⟩) := by
  intro aas
  induction aas with
  | nil => intro r; rfl
  | cons a rest ih =>
    intro r
    by_cases ha : a = wt
    · simp [muteffectsForCodon, ha, ih]
    · simp [muteffectsForCodon, ha, ih]

/-- The keys of the whole `muteffects` construction are `keysSpec`. -/
theorem muteffectsBuild_keys (se : ℚ) (cw means sds : List ℚ) (codonToAA : String → String) :
    ∀ (codons : List String) (i : ℕ) (r : Rng),
    (muteffectsBuild se cw means sds codonToAA codons i r).1.map Prod.fst
      = keysSpec codonToAA codons i := by
  intro codons
  induction codons with
  | nil => intro i r; rfl
  | cons c rest ih =>
    intro i r
    simp [muteffectsBuild, keysSpec, muteffectsForCodon_keys, ih]

/-- Membership characterization of `keysSpec`. -/
theorem keysSpec_mem (codonToAA : String → String) :
    ∀ (codons : List String) (i : ℕ) (k : MutKey),
    k ∈ keysSpec codonToAA codons i ↔
      ∃ p, p < codons.length ∧ ∃ a, a ∈ AAS_WITHSTOP ∧
        a ≠ codonToAA (codons.getD p ("")) ∧
        k = ⟨codonToAA (codons.getD p ("")), i + p + 1, a⟩ := by
  intro codons
  induction codons with
  | nil => intro i k; simp [keysSpec]
  | cons c rest ih =>
    intro i k
    simp only [keysSpec, List.mem_append, List.mem_map, List.mem_filter, ih]
    constructor
    · rintro (⟨a, ⟨haas, hane⟩, rfl⟩ | ⟨p, hp, a, haas, hane, rfl⟩)
      · exact ⟨0, by simp, a, haas, by simpa using hane, by simp⟩
      · refine ⟨p + 1, by simpa using hp, a, haas, by simpa using hane, ?_⟩
        have harith : i + 1 + p + 1 = i + (p + 1) + 1 := by omega
        simp [harith]
    · rintro ⟨p, hp, a, haas, hane, rfl⟩
      cases p with
      | zero =>
        left
        exact ⟨a, ⟨haas, by simpa using hane⟩, by simp⟩
      | succ q =>
        right
        refine ⟨q, by simpa using hp, a, by simpa using haas, by simpa using hane, ?_⟩
        have harith : i + 1 + q + 1 = i + (q + 1) + 1 := by omega
        simp [harith]

/-- The amino-acid alphabet has no duplicates. -/
theorem aas_withstop_nodup : AAS_WITHSTOP.Nodup := by decide

/-- The keys of the `muteffects` construction contain no duplicates. -/
theorem keysSpec_nodup (codonToAA : String → String) :
    ∀ (codons : List String) (i : ℕ), (keysSpec codonToAA codons i).Nodup := by
  intro codons
  induction codons with
  | nil => intro i; simp [keysSpec]
  | cons c rest ih =>
    intro i
    simp only [keysSpec]
    apply List.Nodup.append
    · apply List.Nodup.map
      · intro a b hab
        have := congrArg MutKey.mutAA hab
        simpa using this
      · exact aas_withstop_nodup.filter _
    · exact ih (i + 1)
    · intro k hk1 hk2
      rcases List.mem_map.mp hk1 with ⟨a, _, rfl⟩
      rcases (keysSpec_mem codonToAA rest (i + 1) _).mp hk2 with ⟨p, _, b, _, _, keq⟩
      have := congrArg MutKey.pos keq
      simp at this
      omega

/-- Every stop-mutation entry produced by the per-codon loop carries the
configured stop effect. -/
theorem muteffectsForCodon_stop (se : ℚ) (cw means sds : List ℚ) (wt : String) (pos : ℕ) :
    ∀ (aas : List String) (r : Rng) (e : MutKey × ℚ),
    e ∈ (muteffectsForCodon se cw means sds wt pos aas r).1 →
      e.1.mutAA = "*" → e.2 = se := by
  intro aas
  induction aas with
  | nil => intro r e he; simp [muteffectsForCodon] at he
  | cons a rest ih =>
    intro r e he hstop
    by_cases ha : a = wt
    · rw [muteffectsForCodon, if_pos ha] at he
      exact ih _ e he hstop
    · rw [muteffectsForCodon, if_neg ha] at he
      rcases List.mem_cons.mp he with rfl | htail
      · by_cases hs : a = "*"
        · simp [hs]
        · exact absurd (by simpa using hstop) hs
      · exact ih _ e htail hstop

/-- Every stop-mutation entry of the whole construction carries the
configured stop effect. -/
theorem muteffectsBuild_stop (se : ℚ) (cw means sds : List ℚ) (codonToAA : String → String) :
    ∀ (codons : List String) (i : ℕ) (r : Rng) (e : MutKey × ℚ),
    e ∈ (muteffectsBuild se cw means sds codonToAA codons i r).1 →
      e.1.mutAA = "*" → e.2 = se := by
  intro codons
  induction codons with
  | nil => intro i r e he; simp [muteffectsBuild] at he
  | cons c rest ih =>
    intro i r e he hstop
    rw [muteffectsBuild] at he
    rcases List.mem_append.mp he with hblk | htail
    · exact muteffectsForCodon_stop se cw means sds _ _ _ _ e hblk hstop
    · exact ih _ _ e htail hstop

/-- C6: after construction from any codon-aligned wild-type sequence, the
`muteffects` table has no duplicate keys; its key set is exactly one key
per pair of a codon position and an amino acid (stop included) differing
from the wild-type amino acid there; every stop-mutation entry maps to
exactly the configured `stop_effect`; and the phenotype methods return the
table unchanged (they only read it). -/
theorem C6_muteffects_complete_stop_fixed_immutable (geneCodons : List String)
    (codonToAA : String → String) (norm_weights : List (ℚ × ℚ × ℚ))
    (stop_effect : ℚ) (r : Rng) :
    ((PhenotypeSimulator.mkMuteffects geneCodons codonToAA norm_weights
        stop_effect r).1.map Prod.fst).Nodup ∧
    (∀ k : MutKey,
      k ∈ (PhenotypeSimulator.mkMuteffects geneCodons codonToAA norm_weights
            stop_effect r).1.map Prod.fst ↔
        ∃ p, p < geneCodons.length ∧ ∃ a, a ∈ AAS_WITHSTOP ∧
          a ≠ codonToAA (geneCodons.getD p ("")) ∧
          k = ⟨codonToAA (geneCodons.getD p ("")), p + 1, a⟩) ∧
    (∀ e ∈ (PhenotypeSimulator.mkMuteffects geneCodons codonToAA norm_weights
        stop_effect r).1, e.1.mutAA = "*" → e.2 = stop_effect) ∧
    (∀ (wt_latent : ℚ) (aaSubs : List MutKey),
      (PhenotypeSimulator.latentPhenotypeSt wt_latent
          (PhenotypeSimulator.mkMuteffects geneCodons codonToAA norm_weights
            stop_effect r).1 aaSubs).2
        = (PhenotypeSimulator.mkMuteffects geneCodons codonToAA norm_weights
            stop_effect r).1) ∧
    (∀ (wt_latent : ℝ) (m : List (MutKey × ℝ)) (aaSubs : List MutKey),
      (PhenotypeSimulator.observedPhenotypeSt wt_latent m aaSubs).2 = m) := by
  refine ⟨?_, ?_, ?_, fun _ _ => rfl, fun _ _ _ => rfl⟩
  · rw [PhenotypeSimulator.mkMuteffects, muteffectsBuild_keys]
    exact keysSpec_nodup _ _ _
  · intro k
    rw [PhenotypeSimulator.mkMuteffects, muteffectsBuild_keys, keysSpec_mem]
    constructor
    · rintro ⟨p, hp, a, haas, hane, rfl⟩
      exact ⟨p, hp, a, haas, hane, by simp⟩
    · rintro ⟨p, hp, a, haas, hane, rfl⟩
      exact ⟨p, hp, a, haas, hane, by simp⟩
  · intro e he hstop
    exact muteffectsBuild_stop _ _ _ _ _ _ _ _ e he hstop

/-- Witness for C6: in the table built over the single codon ATG
(wild-type amino acid M), the stop entry at position 1 is present with
exactly the configured stop effect -10; the theorem applied to that
concrete entry confirms its value. -/
theorem C6_witness :
    (⟨⟨"M", 1, "*"⟩, -10⟩ : MutKey × ℚ) ∈
      (PhenotypeSimulator.mkMuteffects ["ATG"] (fun _ => "M") [(1, 0, 1)]
        (-10) ⟨zf, 0⟩).1 ∧
    ((⟨⟨"M", 1, "*"⟩, -10⟩ : MutKey × ℚ)).2 = -10 :=
  ⟨by with_unfolding_all decide,
   (C6_muteffects_complete_stop_fixed_immutable ["ATG"] (fun _ => "M") [(1, 0, 1)]
      (-10) ⟨zf, 0⟩).2.2.1 ⟨⟨"M", 1, "*"⟩, -10⟩ (by with_unfolding_all decide) rfl⟩

/-- Each element of the nucleotide alphabet lookup is in the alphabet. -/
theorem nts_getD_mem (i : ℕ) : NTS.getD i 'A' ∈ NTS := by
  by_cases h4 : i < 4
  · interval_cases i <;> decide
  · rw [List.getD_eq_default]
    · decide
    · simp only [NTS, List.length_cons, List.length_nil]
      omega

/-- A generated barcode has the requested length. -/
theorem genBarcode_length (bclen : ℕ) :
    ∀ r : Rng, (genBarcode bclen r).1.length = bclen := by
  induction bclen with
  | zero => intro r; rfl
  | succ n ih => intro r; simp [genBarcode, ih]

/-- A generated barcode is over the nucleotide alphabet. -/
theorem genBarcode_chars (bclen : ℕ) :
    ∀ (r : Rng) (c : Char), c ∈ (genBarcode bclen r).1 → c ∈ NTS := by
  induction bclen with
  | zero => intro r c hc; simp [genBarcode] at hc
  | succ n ih =>
    intro r c hc
    simp only [genBarcode] at hc
    rcases List.mem_cons.mp hc with rfl | htail
    · exact nts_getD_mem _
    · exact ih _ c htail

/-- The collision-retry loop returns a fresh barcode of the requested
length over the alphabet. -/
theorem genFreshBarcode_spec (bclen : ℕ) (existing : List (List Char)) :
    ∀ (fuel : ℕ) (r : Rng) (bc : List Char) (r1 : Rng),
    genFreshBarcode bclen existing fuel r = .ok (bc, r1) →
    bc ∉ existing ∧ bc.length = bclen ∧ ∀ c ∈ bc, c ∈ NTS := by
  intro fuel
  induction fuel with
  | zero => intro r bc r1 h; exact absurd h (by simp [genFreshBarcode])
  | succ n ih =>
    intro r bc r1 h
    rw [genFreshBarcode] at h
    by_cases hmem : (genBarcode bclen r).1 ∈ existing
    · rw [if_pos hmem] at h
      exact ih _ bc r1 h
    · rw [if_neg hmem] at h
      injection h with h2
      have hbc : (genBarcode bclen r).1 = bc := congrArg Prod.fst h2
      rw [← hbc]
      exact ⟨hmem, genBarcode_length bclen r, genBarcode_chars bclen r⟩

/-- Invariant of the per-library variant loop: it emits exactly `n` rows,
their barcodes are pairwise distinct and fresh with respect to `existing`,
every barcode has the requested length over the alphabet, and every row
carries the library name. -/
theorem simLibLoop_spec (geneseq : List Char) (bclen : ℕ) (lib : String) (avgmuts : ℚ)
    (support : ℕ × ℕ) (fuel : ℕ) :
    ∀ (n : ℕ) (existing : List (List Char)) (r : Rng) (rows : List VariantRowOut) (r1 : Rng),
    simLibLoop geneseq bclen lib avgmuts support fuel n existing r = .ok (rows, r1) →
    rows.length = n ∧ (rows.map (fun v => v.barcode)).Nodup ∧
    ∀ v ∈ rows, v.barcode ∉ existing ∧ v.barcode.length = bclen ∧
      (∀ c ∈ v.barcode, c ∈ NTS) ∧ v.library = lib := by
  intro n
  induction n with
  | zero =>
    intro existing r rows r1 h
    rw [simLibLoop] at h
    cases h
    simp
  | succ n ih =>
    intro existing r rows r1 h
    rw [simLibLoop] at h
    cases hg : genFreshBarcode bclen existing fuel r with
    | error e => rw [hg] at h; exact absurd h (by simp)
    | ok bcr =>
      rw [hg] at h
      dsimp only at h
      rcases genFreshBarcode_spec bclen existing fuel r bcr.1 bcr.2 hg with
        ⟨hfresh, hlen, hchars⟩
      cases hs : sampleWoR (List.range' 1 (geneseq.length / 3))
          (poissonModel avgmuts (((bcr.2.next).2).next).1) (((bcr.2.next).2).next).2 with
      | error e => rw [hs] at h; exact absurd h (by simp)
      | ok pickr =>
        rw [hs] at h
        dsimp only at h
        cases hrec : simLibLoop geneseq bclen lib avgmuts support fuel n (bcr.1 :: existing)
            (variantSubs geneseq pickr.1 pickr.2).2 with
        | error e => rw [hrec] at h; exact absurd h (by simp)
        | ok rowsr =>
          rw [hrec] at h
          dsimp only at h
          injection h with h2
          have hrows : (⟨bcr.1, (variantSubs geneseq pickr.1 pickr.2).1, lib,
              randintModel support.1 support.2 ((bcr.2.next).1)⟩ : VariantRowOut) :: rowsr.1
              = rows := congrArg Prod.fst h2
          rw [← hrows]
          rcases ih (bcr.1 :: existing) _ rowsr.1 rowsr.2 hrec with ⟨ihlen, ihnodup, ihall⟩
          refine ⟨by simp [ihlen], ?_, ?_⟩
          · rw [List.map_cons]
            refine List.nodup_cons.mpr ⟨?_, ihnodup⟩
            intro hbcmem
            rcases List.mem_map.mp hbcmem with ⟨v, hv, hveq⟩
            have := (ihall v hv).1
            rw [hveq] at this
            exact this (List.mem_cons_self _ _)
          · intro v hv
            rcases List.mem_cons.mp hv with rfl | htail
            · exact ⟨hfresh, hlen, hchars, rfl⟩
            · rcases ihall v htail with ⟨hnotin, hl, hc, hlib⟩
              exact ⟨fun hcon => hnotin (List.mem_cons_of_mem _ hcon), hl, hc, hlib⟩

/-- Every row emitted by the library loop of `simulate_CodonVariantTable`
belongs to one of the requested libraries. -/
theorem simAllLibs_libraries (geneseq : List Char) (bclen : ℕ) (support : ℕ × ℕ) (fuel : ℕ) :
    ∀ (specs : List LibSpec) (r : Rng) (rows : List VariantRowOut) (r1 : Rng),
    simAllLibs geneseq bclen support fuel specs r = .ok (rows, r1) →
    ∀ v ∈ rows, ∃ spec ∈ specs, v.library = spec.name := by
  intro specs
  induction specs with
  | nil =>
    intro r rows r1 h
    rw [simAllLibs] at h
    cases h
    simp
  | cons spec rest ih =>
    intro r rows r1 h
    rw [simAllLibs] at h
    by_cases hbc : 10 * spec.nvariants > NTS.length ^ bclen
    · rw [if_pos hbc] at h; exact absurd h (by simp)
    · rw [if_neg hbc] at h
      cases hl : simLibLoop geneseq bclen spec.name spec.avgmuts support fuel
          spec.nvariants [] r with
      | error e => rw [hl] at h; exact absurd h (by simp)
      | ok lr =>
        rw [hl] at h
        dsimp only at h
        cases hr : simAllLibs geneseq bclen support fuel rest lr.2 with
        | error e => rw [hr] at h; exact absurd h (by simp)
        | ok rr =>
          rw [hr] at h
          dsimp only at h
          injection h with h2
          have hrows : lr.1 ++ rr.1 = rows := congrArg Prod.fst h2
          rw [← hrows]
          intro v hv
          rcases List.mem_append.mp hv with h1 | h2m
          · have := ((simLibLoop_spec geneseq bclen spec.name spec.avgmuts support fuel
                spec.nvariants [] r lr.1 lr.2 hl).2.2 v h1).2.2.2
            exact ⟨spec, List.mem_cons_self _ _, this⟩
          · rcases ih lr.2 rr.1 rr.2 hr v h2m with ⟨s, hs, hname⟩
            exact ⟨s, List.mem_cons_of_mem _ hs, hname⟩

/-- Per-library properties of the library loop, extracted by filtering the
flat output on the library name (library names assumed distinct, as they
are keys of the `library_specs` dict). -/
theorem simAllLibs_filter (geneseq : List Char) (bclen : ℕ) (support : ℕ × ℕ) (fuel : ℕ) :
    ∀ (specs : List LibSpec) (r : Rng) (rows : List VariantRowOut) (r1 : Rng),
    simAllLibs geneseq bclen support fuel specs r = .ok (rows, r1) →
    (specs.map (fun s => s.name)).Nodup →
    ∀ spec ∈ specs,
      (rows.filter (fun v => v.library = spec.name)).length = spec.nvariants ∧
      ((rows.filter (fun v => v.library = spec.name)).map (fun v => v.barcode)).Nodup ∧
      ∀ v ∈ rows.filter (fun v => v.library = spec.name),
        v.barcode.length = bclen ∧ ∀ c ∈ v.barcode, c ∈ NTS := by
  intro specs
  induction specs with
  | nil => intro r rows r1 h hnames spec hspec; simp at hspec
  | cons spec0 rest ih =>
    intro r rows r1 h hnames spec hspec
    rw [simAllLibs] at h
    by_cases hbc : 10 * spec0.nvariants > NTS.length ^ bclen
    · rw [if_pos hbc] at h; exact absurd h (by simp)
    · rw [if_neg hbc] at h
      cases hl : simLibLoop geneseq bclen spec0.name spec0.avgmuts support fuel
          spec0.nvariants [] r with
      | error e => rw [hl] at h; exact absurd h (by simp)
      | ok lr =>
        rw [hl] at h
        dsimp only at h
        cases hr : simAllLibs geneseq bclen support fuel rest lr.2 with
        | error e => rw [hr] at h; exact absurd h (by simp)
        | ok rr =>
          rw [hr] at h
          dsimp only at h
          injection h with h2
          have hrows : lr.1 ++ rr.1 = rows := congrArg Prod.fst h2
          rw [← hrows]
          rcases simLibLoop_spec geneseq bclen spec0.name spec0.avgmuts support fuel
              spec0.nvariants [] r lr.1 lr.2 hl with ⟨hlen1, hnodup1, hall1⟩
          have hnames0 : spec0.name ∉ rest.map (fun s => s.name) :=
            (List.nodup_cons.mp hnames).1
          have hnamesrest : (rest.map (fun s => s.name)).Nodup :=
            (List.nodup_cons.mp hnames).2
          rcases List.mem_cons.mp hspec with rfl | hrest
          · -- the head library: its block is exactly the filter
            have hfilter1 : lr.1.filter (fun v => v.library = spec.name) = lr.1 := by
              rw [List.filter_eq_self]
              intro v hv
              simp [(hall1 v hv).2.2.2]
            have hfilter2 : rr.1.filter (fun v => v.library = spec.name) = [] := by
              rw [List.filter_eq_nil_iff]
              intro v hv
              rcases simAllLibs_libraries geneseq bclen support fuel rest lr.2 rr.1 rr.2 hr
                  v hv with ⟨s, hs, hname⟩
              simp only [decide_eq_true_eq]
              intro hcon
              apply hnames0
              rw [← hcon, hname]
              exact List.mem_map.mpr ⟨s, hs, rfl⟩
            rw [List.filter_append, hfilter1, hfilter2, List.append_nil]
            exact ⟨hlen1, hnodup1, fun v hv => ⟨(hall1 v hv).2.1, (hall1 v hv).2.2.1⟩⟩
          · -- a library of the tail: the head block filters away
            have hname_ne : spec.name ≠ spec0.name := by
              intro hcon
              apply hnames0
              rw [← hcon]
              exact List.mem_map.mpr ⟨spec, hrest, rfl⟩
            have hfilter1 : lr.1.filter (fun v => v.library = spec.name) = [] := by
              rw [List.filter_eq_nil_iff]
              intro v hv
              simp only [decide_eq_true_eq]
              rw [(hall1 v hv).2.2.2]
              exact fun hcon => hname_ne hcon.symm
            rw [List.filter_append, hfilter1, List.nil_append]
            exact ih lr.2 rr.1 rr.2 hr hnamesrest spec hrest

/-- C8: whenever `simulate_CodonVariantTable` returns a variant table, the
block of each requested library holds exactly the requested number of
variants, their barcodes are pairwise distinct, and every barcode is a
length-`bclen` word over the nucleotide alphabet. -/
theorem C8_barcodes_unique_per_library (geneseq : List Char) (bclen : ℕ)
    (specs : List LibSpec) (support : ℕ × ℕ) (fuel : ℕ) (r : Rng)
    (rows : List VariantRowOut)
    (hnames : (specs.map (fun s => s.name)).Nodup)
    (hok : simulate_CodonVariantTable geneseq bclen specs support fuel r = .ok rows) :
    ∀ spec ∈ specs,
      (rows.filter (fun v => v.library = spec.name)).length = spec.nvariants ∧
      ((rows.filter (fun v => v.library = spec.name)).map (fun v => v.barcode)).Nodup ∧
      ∀ v ∈ rows.filter (fun v => v.library = spec.name),
        v.barcode.length = bclen ∧ ∀ c ∈ v.barcode, c ∈ NTS := by
  rw [simulate_CodonVariantTable] at hok
  by_cases h1 : specs.length < 1
  · rw [if_pos h1] at hok; exact absurd hok (by simp)
  · rw [if_neg h1] at hok
    by_cases h2 : geneseq.length % 3 ≠ 0
    · rw [if_pos h2] at hok; exact absurd hok (by simp)
    · rw [if_neg h2] at hok
      cases ha : simAllLibs geneseq bclen support fuel specs r with
      | error e => rw [ha] at hok; exact absurd hok (by simp)
      | ok ar =>
        rw [ha] at hok
        dsimp only at hok
        injection hok with h2
        rw [← h2]
        exact simAllLibs_filter geneseq bclen support fuel specs r ar.1 ar.2 ha hnames

/-- Witness for C8: a concrete run with one library of one variant;
applying the theorem to it yields the uniqueness, size, and alphabet
properties of its barcode set. -/
theorem C8_witness :
    (([⟨['A', 'A'], [], "L", 1⟩] : List VariantRowOut).filter
        (fun v => v.library = "L")).length = 1 ∧
    ((([⟨['A', 'A'], [], "L", 1⟩] : List VariantRowOut).filter
        (fun v => v.library = "L")).map (fun v => v.barcode)).Nodup ∧
    ∀ v ∈ ([⟨['A', 'A'], [], "L", 1⟩] : List VariantRowOut).filter
        (fun v => v.library = "L"),
      v.barcode.length = 2 ∧ ∀ c ∈ v.barcode, c ∈ NTS :=
  C8_barcodes_unique_per_library ("AAACCC".toList) 2 [⟨"L", 1, 0⟩] (1, 1) 3 ⟨zf, 0⟩
    [⟨['A', 'A'], [], "L", 1⟩] (by decide) (by with_unfolding_all rfl)
    ⟨"L", 1, 0⟩ (by decide)

/-- Position bounds for the tokens of the nucleotide loop of one codon. -/
theorem ntTokensAux_pos_bounds (base : ℕ) :
    ∀ (l : List (Char × Char)) (i : ℕ) (t : NtSub), t ∈ ntTokensAux base i l →
      base + i + 1 ≤ t.pos ∧ t.pos ≤ base + i + l.length := by
  intro l
  induction l with
  | nil => intro i t ht; simp [ntTokensAux] at ht
  | cons wm rest ih =>
    intro i t ht
    obtain ⟨w, m⟩ := wm
    rw [ntTokensAux] at ht
    by_cases hwm : w ≠ m
    · rw [if_pos hwm] at ht
      rcases List.mem_cons.mp ht with rfl | htail
      · simp
      · have := ih (i + 1) t htail
        constructor <;> [omega; (simp only [List.length_cons]; omega)]
    · rw [if_neg hwm] at ht
      have := ih (i + 1) t ht
      constructor <;> [omega; (simp only [List.length_cons]; omega)]

/-- The tokens of one codon appear in strictly increasing genomic
position. -/
theorem ntTokensAux_pairwise (base : ℕ) :
    ∀ (l : List (Char × Char)) (i : ℕ),
    List.Pairwise (· < ·) ((ntTokensAux base i l).map (fun t => t.pos)) := by
  intro l
  induction l with
  | nil => intro i; simp [ntTokensAux]
  | cons wm rest ih =>
    intro i
    obtain ⟨w, m⟩ := wm
    rw [ntTokensAux]
    by_cases hwm : w ≠ m
    · rw [if_pos hwm]
      rw [List.map_cons]
      refine List.pairwise_cons.mpr ⟨?_, ih (i + 1)⟩
      intro x hx
      rcases List.mem_map.mp hx with ⟨t, ht, rfl⟩
      have := (ntTokensAux_pos_bounds base rest (i + 1) t ht).1
      simp only
      omega
    · rw [if_neg hwm]
      exact ih (i + 1)

/-- Every token of the substitution list of a variant lies in the 3-nucleotide
window of one of its sampled codons. -/
theorem variantSubs_mem_bounds (geneseq : List Char) :
    ∀ (picked : List ℕ) (r : Rng) (t : NtSub), t ∈ (variantSubs geneseq picked r).1 →
      ∃ q ∈ picked, 3 * (q - 1) + 1 ≤ t.pos ∧ t.pos ≤ 3 * (q - 1) + 3 := by
  intro picked
  induction picked with
  | nil => intro r t ht; simp [variantSubs] at ht
  | cons p ps ih =>
    intro r t ht
    rw [variantSubs] at ht
    rcases List.mem_append.mp ht with hhead | htail
    · refine ⟨p, List.mem_cons_self _ _, ?_⟩
      have hb := ntTokensAux_pos_bounds (3 * (p - 1)) _ 0 t hhead
      have hlen : (List.zip ((geneseq.drop (3 * (p - 1))).take 3)
          ((CODONS.filter (fun c => c ≠ String.mk ((geneseq.drop (3 * (p - 1))).take 3))).getD
            (idxModel ((r.next).1)
              (CODONS.filter (fun c => c ≠ String.mk ((geneseq.drop (3 * (p - 1))).take 3))).length)
            "").toList).length ≤ 3 := by
        rw [List.length_zip]
        have : ((geneseq.drop (3 * (p - 1))).take 3).length ≤ 3 := by
          rw [List.length_take]
          omega
        omega
      rcases hb with ⟨hb1, hb2⟩
      exact ⟨by omega, by omega⟩
    · rcases ih _ t htail with ⟨q, hq, hbnd⟩
      exact ⟨q, List.mem_cons_of_mem _ hq, hbnd⟩

/-- C4 amended: the tokens within each sampled codon appear in strictly
increasing genomic position, and the codon blocks follow the random
sampling order; hence whenever the sampled codon positions are strictly
increasing (and at least 1, as positions are 1-based), the whole
space-joined token list is in strictly increasing genomic position.  The
claim as stated fails because `random.sample` does not sort. -/
theorem C4_amended_tokens_sorted_when_sample_sorted (geneseq : List Char) :
    ∀ (picked : List ℕ) (r : Rng),
    List.Pairwise (· < ·) picked → (∀ p ∈ picked, 1 ≤ p) →
    List.Pairwise (· < ·) ((variantSubs geneseq picked r).1.map (fun t => t.pos)) := by
  intro picked
  induction picked with
  | nil => intro r _ _; simp [variantSubs]
  | cons p ps ih =>
    intro r hsorted hpos
    rw [variantSubs]
    dsimp only
    rw [List.map_append]
    rcases List.pairwise_cons.mp hsorted with ⟨hlt, hps⟩
    refine List.pairwise_append.mpr ⟨?_, ?_, ?_⟩
    · rw [codonNtTokens]
      exact ntTokensAux_pairwise _ _ 0
    · exact ih _ hps (fun q hq => hpos q (List.mem_cons_of_mem _ hq))
    · intro x hx y hy
      rcases List.mem_map.mp hx with ⟨t, ht, rfl⟩
      rcases List.mem_map.mp hy with ⟨u, hu, rfl⟩
      rw [codonNtTokens] at ht
      have hx2 := (ntTokensAux_pos_bounds (3 * (p - 1)) _ 0 t ht).2
      have hxlen : (List.zip ((geneseq.drop (3 * (p - 1))).take 3)
          ((CODONS.filter (fun c => c ≠ String.mk ((geneseq.drop (3 * (p - 1))).take 3))).getD
            (idxModel ((r.next).1)
              (CODONS.filter (fun c => c ≠ String.mk ((geneseq.drop (3 * (p - 1))).take 3))).length)
            "").toList).length ≤ 3 := by
        rw [List.length_zip]
        have : ((geneseq.drop (3 * (p - 1))).take 3).length ≤ 3 := by
          rw [List.length_take]
          omega
        omega
      rcases variantSubs_mem_bounds geneseq ps _ u hu with ⟨q, hq, hql, _⟩
      have hpq : p < q := hlt q hq
      have hq1 : 1 ≤ p := hpos p (List.mem_cons_self _ _)
      omega

/-- Witness for C4 amended: with the codons sampled in increasing order
[1, 2], the generated token positions are strictly increasing. -/
theorem C4_witness :
    List.Pairwise (· < ·)
      ((variantSubs ("AAACCC".toList) [1, 2] ⟨zf, 0⟩).1.map (fun t => t.pos)) :=
  C4_amended_tokens_sorted_when_sample_sorted ("AAACCC".toList) [1, 2] ⟨zf, 0⟩
    (by decide) (by decide)

/-- The `pre_sample`-as-DataFrame branch never returns normally: every
path raises (missing columns, differently-labeled comparison, the
ambiguous Series truth value, or the invalid group-by rename). -/
theorem preBranchDF_errors (dfRows : List (String × String × ℕ)) (dfCols : List String)
    (bvRows : List PhRow) (r : Rng) :
    ∃ e, (preBranchDF dfRows dfCols bvRows r).1 = Except.error e := by
  simp only [preBranchDF]
  by_cases h1 : ¬ (["library", "barcode", "count"].all (fun c => dfCols.contains c)) = true
  · rw [if_pos h1]
    exact ⟨_, rfl⟩
  · rw [if_neg h1]
    cases hn : neqAnySeries (sortPairsIndexed (dfRows.map (fun t => (t.1, t.2.1))))
        (sortPairsIndexed (bvRows.map (fun t => (t.library, t.barcode)))) with
    | error e => exact ⟨e, rfl⟩
    | ok series =>
      dsimp only
      cases hs : seriesTruth series with
      | error e => exact ⟨e, rfl⟩
      | ok b =>
        cases b
        · exact ⟨_, rfl⟩
        · exact ⟨_, rfl⟩

/-- C9: whenever some post-selection sample name equals one of the
internal column names `library`, `barcode`, `sample`, `count`, `pre_freq`,
`phenotype`, `simulateSampleCounts` fails — such a name never collides
with the default pre-sample name, yet the column check rejects it (and
every run that would error earlier also fails). -/
theorem C9_internal_column_name_rejected (variants : Variants)
    (codonToAAMuts : List Mut → List MutKey) (phenotype_func : VRow → ℚ)
    (variant_error_rate : ℚ) (pre_sample : PreSample)
    (post_samples : List (String × PostSpec)) (pre_sample_name : String) (r0 : Rng)
    (c : String) (hc : c ∈ internalCols)
    (hn : c ∈ post_samples.map (fun sd => sd.1)) :
    ∃ msg, (simulateSampleCounts variants codonToAAMuts phenotype_func variant_error_rate
      pre_sample post_samples pre_sample_name r0).1 = Except.error msg := by
  simp only [simulateSampleCounts]
  cases hpre : (post_samples.map (fun sd => sd.1)).contains pre_sample_name with
  | true => exact ⟨_, by rw [if_pos rfl]⟩
  | false =>
    rw [if_neg (by simp)]
    cases hinj : (injectErrors variants.sites variants.codons codonToAAMuts phenotype_func
        variant_error_rate variants.rows r0).1 with
    | error e => exact ⟨e, rfl⟩
    | ok phRows =>
      have hfind : ∃ c1, internalCols.find?
          (fun c2 => (post_samples.map (fun sd => sd.1)).contains c2) = some c1 := by
        have hsome : (internalCols.find?
            (fun c2 => (post_samples.map (fun sd => sd.1)).contains c2)).isSome := by
          rw [List.find?_isSome]
          exact ⟨c, hc, by simpa using hn⟩
        exact Option.isSome_iff_exists.mp hsome
      rcases hfind with ⟨c1, hfind⟩
      cases pre_sample with
      | df dfRows dfCols =>
        dsimp only
        rcases preBranchDF_errors dfRows dfCols phRows
            (injectErrors variants.sites variants.codons codonToAAMuts phenotype_func
              variant_error_rate variants.rows r0).2 with ⟨e, he⟩
        cases hdf : (preBranchDF dfRows dfCols phRows
            (injectErrors variants.sites variants.codons codonToAAMuts phenotype_func
              variant_error_rate variants.rows r0).2).1 with
        | error e2 => exact ⟨e2, rfl⟩
        | ok preRows =>
          rw [hdf] at he
          exact absurd he (by simp)
      | dict keys u t =>
        dsimp only
        by_cases hkeys : sameKeySet keys preReqKeys = true
        · rw [if_neg (not_not_intro hkeys)]
          rw [hfind]
          exact ⟨_, rfl⟩
        · rw [if_pos hkeys]
          exact ⟨_, rfl⟩
      | other =>
        exact ⟨_, rfl⟩

/-- Witness for C9: a post-selection sample named `count` (which does not
collide with the pre-sample name) is rejected. -/
theorem C9_witness :
    ∃ msg, (simulateSampleCounts c5variants (fun _ => []) (fun _ => 1) 0
        (.dict ["uniformity", "total_count"] 5 10)
        [("count", ⟨postReqKeys, 10, 0, none⟩)] "pre-selection" ⟨zf, 0⟩).1
      = Except.error msg :=
  C9_internal_column_name_rejected c5variants (fun _ => []) (fun _ => 1) 0
    (.dict ["uniformity", "total_count"] 5 10)
    [("count", ⟨postReqKeys, 10, 0, none⟩)] "pre-selection" ⟨zf, 0⟩
    "count" (by decide) (by decide)

/-- The error-injection of one variant consumes at least one uniform
variate (the error-rate draw), whatever branch is taken. -/
theorem addVariantErrors_k (sites : List ℕ) (codons : ℕ → String) (rate : ℚ)
    (subs : List Mut) (r : Rng) :
    r.k + 1 ≤ (addVariantErrors sites codons rate subs r).2.k := by
  simp only [addVariantErrors, Rng.next]
  repeat' split
  all_goals simp

/-- The injection stage never rewinds the variate counter. -/
theorem injectErrors_k_mono (sites : List ℕ) (codons : ℕ → String)
    (cta : List Mut → List MutKey) (pf : VRow → ℚ) (rate : ℚ) :
    ∀ (rows : List BVRow) (r : Rng),
    r.k ≤ (injectErrors sites codons cta pf rate rows r).2.k := by
  intro rows
  induction rows with
  | nil => intro r; exact le_refl _
  | cons row rest ih =>
    intro r
    have hA := addVariantErrors_k sites codons rate row.codonSubs r
    simp only [injectErrors]
    cases har : (addVariantErrors sites codons rate row.codonSubs r).1 with
    | error e =>
      dsimp only
      omega
    | ok subs =>
      dsimp only
      have hB := ih (addVariantErrors sites codons rate row.codonSubs r).2
      cases htr : (injectErrors sites codons cta pf rate rest
          (addVariantErrors sites codons rate row.codonSubs r).2).1 with
      | error e => dsimp only; omega
      | ok tail => dsimp only; omega

/-- With at least one variant, the injection stage consumes at least one
variate. -/
theorem injectErrors_k_pos (sites : List ℕ) (codons : ℕ → String)
    (cta : List Mut → List MutKey) (pf : VRow → ℚ) (rate : ℚ)
    (rows : List BVRow) (r : Rng) (hne : rows ≠ []) :
    r.k + 1 ≤ (injectErrors sites codons cta pf rate rows r).2.k := by
  cases rows with
  | nil => exact absurd rfl hne
  | cons row rest =>
    have hA := addVariantErrors_k sites codons rate row.codonSubs r
    simp only [injectErrors]
    cases har : (addVariantErrors sites codons rate row.codonSubs r).1 with
    | error e => dsimp only; omega
    | ok subs =>
      dsimp only
      have hB := injectErrors_k_mono sites codons cta pf rate rest
        (addVariantErrors sites codons rate row.codonSubs r).2
      cases htr : (injectErrors sites codons cta pf rate rest
          (addVariantErrors sites codons rate row.codonSubs r).2).1 with
      | error e => dsimp only; omega
      | ok tail => dsimp only; omega

/-- `drawK` consumes exactly its count of variates. -/
theorem drawK_k (n : ℕ) : ∀ r : Rng, (drawK n r).2.k = r.k + n := by
  induction n with
  | zero => intro r; rfl
  | succ m ih =>
    intro r
    simp only [drawK]
    rw [ih]
    simp [Rng.next]
    omega

/-- The simulated pre-selection branch never rewinds the counter. -/
theorem preSimLib_k_mono (pre_sample_name : String) (uniformity : ℚ) (total_count : ℕ)
    (rows : List PhRow) (lib : String) (r : Rng) :
    r.k ≤ (preSimLib pre_sample_name uniformity total_count rows lib r).2.k := by
  simp only [preSimLib, Rng.skip]
  rw [drawK_k]
  omega

/-- The whole simulated pre-selection stage never rewinds the counter. -/
theorem preDictAll_k_mono (pre_sample_name : String) (uniformity : ℚ) (total_count : ℕ)
    (rows : List PhRow) :
    ∀ (libs : List String) (r : Rng),
    r.k ≤ (preDictAll pre_sample_name uniformity total_count rows libs r).2.k := by
  intro libs
  induction libs with
  | nil => intro r; exact le_refl _
  | cons lib rest ih =>
    intro r
    simp only [preDictAll]
    exact le_trans (preSimLib_k_mono pre_sample_name uniformity total_count rows lib r)
      (ih (preSimLib pre_sample_name uniformity total_count rows lib r).2)

/-- The bottleneck stage never rewinds the counter. -/
theorem bottleneckFreqs_k_mono (pre_freqs : List ℚ) (bottleneck : Option ℕ) (r : Rng) :
    r.k ≤ (bottleneckFreqs pre_freqs bottleneck r).2.k := by
  cases bottleneck with
  | none => exact le_refl _
  | some b => simp [bottleneckFreqs, Rng.skip]

/-- One post-selection block never rewinds the counter. -/
theorem postLibBlock_k_mono (rows : List PreRow) (lib sampleName : String) (d : PostSpec)
    (r : Rng) : r.k ≤ (postLibBlock rows lib sampleName d r).2.k := by
  simp only [postLibBlock, Rng.skip]
  have h1 : r.k ≤ ((r.next).2).k := by simp [Rng.next]
  have h2 := bottleneckFreqs_k_mono
    ((rows.filter (fun x => x.library = lib)).map (fun x => x.pre_freq)) d.bottleneck (r.next).2
  omega

/-- The per-library sample loop never rewinds the counter. -/
theorem postLoopSamples_k_mono (rows : List PreRow) (lib : String) :
    ∀ (samples : List (String × PostSpec)) (r : Rng),
    r.k ≤ (postLoopSamples rows lib samples r).2.k := by
  intro samples
  induction samples with
  | nil => intro r; exact le_refl _
  | cons sd rest ih =>
    intro r
    obtain ⟨s, d⟩ := sd
    simp only [postLoopSamples]
    by_cases hk : sameKeySet d.keys postReqKeys = true
    · rw [if_neg (not_not_intro hk)]
      have h1 := postLibBlock_k_mono rows lib s d r
      have h2 := ih (postLibBlock rows lib s d r).2
      cases htr : (postLoopSamples rows lib rest (postLibBlock rows lib s d r).2).1 with
      | error e => dsimp only; omega
      | ok tail => dsimp only; omega
    · rw [if_pos (by simpa using hk)]

/-- The library-major post-selection loop never rewinds the counter. -/
theorem postLoopLibs_k_mono (rows : List PreRow) (samples : List (String × PostSpec)) :
    ∀ (libs : List String) (r : Rng),
    r.k ≤ (postLoopLibs rows samples libs r).2.k := by
  intro libs
  induction libs with
  | nil => intro r; exact le_refl _
  | cons lib rest ih =>
    intro r
    simp only [postLoopLibs]
    have h1 := postLoopSamples_k_mono rows lib samples r
    cases hsr : (postLoopSamples rows lib samples r).1 with
    | error e => dsimp only; omega
    | ok block =>
      dsimp only
      have h2 := ih (postLoopSamples rows lib samples r).2
      cases htr : (postLoopLibs rows samples rest (postLoopSamples rows lib samples r).2).1 with
      | error e => dsimp only; omega
      | ok tail => dsimp only; omega

/-- If some sample spec of the list is missing or carrying extra keys, the
per-library sample loop fails. -/
theorem postLoopSamples_err (rows : List PreRow) (lib : String) :
    ∀ (samples : List (String × PostSpec)) (r : Rng),
    (∃ sd ∈ samples, sameKeySet sd.2.keys postReqKeys = false) →
    errored (postLoopSamples rows lib samples r).1 = true := by
  intro samples
  induction samples with
  | nil =>
    intro r h
    rcases h with ⟨sd, hsd, _⟩
    simp at hsd
  | cons sd rest ih =>
    intro r h
    obtain ⟨s, d⟩ := sd
    simp only [postLoopSamples]
    by_cases hk : sameKeySet d.keys postReqKeys = true
    · rw [if_neg (not_not_intro hk)]
      have hrest : ∃ x ∈ rest, sameKeySet x.2.keys postReqKeys = false := by
        rcases h with ⟨x, hx, hxf⟩
        rcases List.mem_cons.mp hx with rfl | hxr
        · rw [hk] at hxf
          exact absurd hxf (by simp)
        · exact ⟨x, hxr, hxf⟩
      have herr := ih (postLibBlock rows lib s d r).2 hrest
      cases htr : (postLoopSamples rows lib rest (postLibBlock rows lib s d r).2).1 with
      | error e => rfl
      | ok tail =>
        rw [htr] at herr
        exact absurd herr (by simp [errored])
    · rw [if_pos (by simpa using hk)]
      rfl

/-- With at least one library, a malformed sample spec makes the
library-major post-selection loop fail. -/
theorem postLoopLibs_err (rows : List PreRow) (samples : List (String × PostSpec)) :
    ∀ (libs : List String) (r : Rng), libs ≠ [] →
    (∃ sd ∈ samples, sameKeySet sd.2.keys postReqKeys = false) →
    errored (postLoopLibs rows samples libs r).1 = true := by
  intro libs r hne h
  cases libs with
  | nil => exact absurd rfl hne
  | cons lib rest =>
    simp only [postLoopLibs]
    have herr := postLoopSamples_err rows lib samples r h
    cases hsr : (postLoopSamples rows lib samples r).1 with
    | error e => rfl
    | ok block =>
      rw [hsr] at herr
      exact absurd herr (by simp [errored])

/-- Insertion preserves membership. -/
theorem mem_insertByName (x : String × PostSpec) :
    ∀ (l : List (String × PostSpec)) (y : String × PostSpec),
    y ∈ l → y ∈ insertByName x l := by
  intro l
  induction l with
  | nil => intro y hy; simp at hy
  | cons z zs ih =>
    intro y hy
    rw [insertByName]
    by_cases hle : x.1 ≤ z.1
    · rw [if_pos hle]
      exact List.mem_cons_of_mem _ hy
    · rw [if_neg hle]
      rcases List.mem_cons.mp hy with rfl | hzs
      · exact List.mem_cons_self _ _
      · exact List.mem_cons_of_mem _ (ih y hzs)

/-- The inserted element is a member. -/
theorem self_mem_insertByName (x : String × PostSpec) :
    ∀ (l : List (String × PostSpec)), x ∈ insertByName x l := by
  intro l
  induction l with
  | nil => simp [insertByName]
  | cons z zs ih =>
    rw [insertByName]
    by_cases hle : x.1 ≤ z.1
    · rw [if_pos hle]
      exact List.mem_cons_self _ _
    · rw [if_neg hle]
      exact List.mem_cons_of_mem _ ih

/-- Sorting the sample list preserves membership. -/
theorem mem_sortByName :
    ∀ (l : List (String × PostSpec)) (y : String × PostSpec),
    y ∈ l → y ∈ sortByName l := by
  intro l
  induction l with
  | nil => intro y hy; simp at hy
  | cons x xs ih =>
    intro y hy
    rw [sortByName]
    rcases List.mem_cons.mp hy with rfl | hxs
    · exact self_mem_insertByName y (sortByName xs)
    · exact mem_insertByName x (sortByName xs) y (ih y hxs)

/-- C5 amended: only the pre/post sample-name collision is detected
before any random draw (the call returns with the stream untouched); a
post-sample spec with missing or extra keys still always causes failure
(given a well-formed simulated pre-sample, at least one variant and one
library), but only inside the sampling loop, after at least one variate —
the error-injection uniforms and the pre-selection Dirichlet and
multinomial draws — has been consumed. -/
theorem C5_amended_name_check_first_key_check_after_draws (variants : Variants)
    (codonToAAMuts : List Mut → List MutKey) (phenotype_func : VRow → ℚ)
    (variant_error_rate : ℚ) (keys : List String) (uniformity : ℚ) (total_count : ℕ)
    (post_samples : List (String × PostSpec)) (pre_sample_name : String) (f : ℕ → ℚ) :
    ((post_samples.map (fun sd => sd.1)).contains pre_sample_name = true →
      simulateSampleCounts variants codonToAAMuts phenotype_func variant_error_rate
          (.dict keys uniformity total_count) post_samples pre_sample_name ⟨f, 0⟩
        = (Except.error ("pre_sample_name is in post_samples"), ⟨f, 0⟩)) ∧
    ((post_samples.map (fun sd => sd.1)).contains pre_sample_name = false →
      sameKeySet keys preReqKeys = true →
      variants.rows ≠ [] → variants.libraries ≠ [] →
      (∃ sd ∈ post_samples, sameKeySet sd.2.keys postReqKeys = false) →
      errored (simulateSampleCounts variants codonToAAMuts phenotype_func variant_error_rate
          (.dict keys uniformity total_count) post_samples pre_sample_name ⟨f, 0⟩).1 = true ∧
      1 ≤ (simulateSampleCounts variants codonToAAMuts phenotype_func variant_error_rate
          (.dict keys uniformity total_count) post_samples pre_sample_name ⟨f, 0⟩).2.k) := by
  constructor
  · intro hcol
    simp only [simulateSampleCounts, hcol, if_pos]
  · intro hcol hkeys hrows hlibs hmal
    simp only [simulateSampleCounts, hcol, Bool.false_eq_true, if_false]
    have hinjpos := injectErrors_k_pos variants.sites variants.codons codonToAAMuts
      phenotype_func variant_error_rate variants.rows ⟨f, 0⟩ hrows
    cases hinj : (injectErrors variants.sites variants.codons codonToAAMuts phenotype_func
        variant_error_rate variants.rows ⟨f, 0⟩).1 with
    | error e =>
      dsimp only
      exact ⟨rfl, by simpa using hinjpos⟩
    | ok phRows =>
      dsimp only
      rw [if_neg (not_not_intro hkeys)]
      dsimp only
      have hdict := preDictAll_k_mono pre_sample_name uniformity total_count phRows
        variants.libraries
        (injectErrors variants.sites variants.codons codonToAAMuts phenotype_func
          variant_error_rate variants.rows ⟨f, 0⟩).2
      cases hfind : internalCols.find?
          (fun c => (post_samples.map (fun sd => sd.1)).contains c) with
      | some c =>
        dsimp only
        constructor
        · rfl
        · simp only [Rng.k] at hinjpos hdict ⊢
          omega
      | none =>
        dsimp only
        have hmal2 : ∃ sd ∈ sortByName post_samples,
            sameKeySet sd.2.keys postReqKeys = false := by
          rcases hmal with ⟨sd, hsd, hf2⟩
          exact ⟨sd, mem_sortByName post_samples sd hsd, hf2⟩
        have herr := postLoopLibs_err
          (preDictAll pre_sample_name uniformity total_count phRows variants.libraries
            (injectErrors variants.sites variants.codons codonToAAMuts phenotype_func
              variant_error_rate variants.rows ⟨f, 0⟩).2).1
          (sortByName post_samples) variants.libraries
          (preDictAll pre_sample_name uniformity total_count phRows variants.libraries
            (injectErrors variants.sites variants.codons codonToAAMuts phenotype_func
              variant_error_rate variants.rows ⟨f, 0⟩).2).2 hlibs hmal2
        have hplm := postLoopLibs_k_mono
          (preDictAll pre_sample_name uniformity total_count phRows variants.libraries
            (injectErrors variants.sites variants.codons codonToAAMuts phenotype_func
              variant_error_rate variants.rows ⟨f, 0⟩).2).1
          (sortByName post_samples) variants.libraries
          (preDictAll pre_sample_name uniformity total_count phRows variants.libraries
            (injectErrors variants.sites variants.codons codonToAAMuts phenotype_func
              variant_error_rate variants.rows ⟨f, 0⟩).2).2
        cases hplr : (postLoopLibs
            (preDictAll pre_sample_name uniformity total_count phRows variants.libraries
              (injectErrors variants.sites variants.codons codonToAAMuts phenotype_func
                variant_error_rate variants.rows ⟨f, 0⟩).2).1
            (sortByName post_samples) variants.libraries
            (preDictAll pre_sample_name uniformity total_count phRows variants.libraries
              (injectErrors variants.sites variants.codons codonToAAMuts phenotype_func
                variant_error_rate variants.rows ⟨f, 0⟩).2).2).1 with
        | error e =>
          dsimp only
          constructor
          · rfl
          · simp only [Rng.k] at hinjpos hdict hplm ⊢
            omega
        | ok fullRows =>
          rw [hplr] at herr
          exact absurd herr (by simp [errored])

/-- Witness for C5 amended: a name collision returns with the stream
untouched, and a spec missing the bottleneck key fails only after at
least one variate has been consumed. -/
theorem C5_witness :
    (simulateSampleCounts c5variants (fun _ => []) (fun _ => 1) 0
        (.dict ["uniformity", "total_count"] 5 10)
        [("pre-selection", ⟨postReqKeys, 10, 0, none⟩)] "pre-selection" ⟨zf, 0⟩
      = (Except.error ("pre_sample_name is in post_samples"), ⟨zf, 0⟩)) ∧
    (errored (simulateSampleCounts c5variants (fun _ => []) (fun _ => 1) 0
        (.dict ["uniformity", "total_count"] 5 10)
        [("s1", ⟨["noise", "total_count"], 10, 0, none⟩)] "pre-selection" ⟨zf, 0⟩).1 = true ∧
      1 ≤ (simulateSampleCounts c5variants (fun _ => []) (fun _ => 1) 0
        (.dict ["uniformity", "total_count"] 5 10)
        [("s1", ⟨["noise", "total_count"], 10, 0, none⟩)] "pre-selection" ⟨zf, 0⟩).2.k) :=
  ⟨(C5_amended_name_check_first_key_check_after_draws c5variants (fun _ => []) (fun _ => 1) 0
      ["uniformity", "total_count"] 5 10
      [("pre-selection", ⟨postReqKeys, 10, 0, none⟩)] "pre-selection" zf).1 (by decide),
   (C5_amended_name_check_first_key_check_after_draws c5variants (fun _ => []) (fun _ => 1) 0
      ["uniformity", "total_count"] 5 10
      [("s1", ⟨["noise", "total_count"], 10, 0, none⟩)] "pre-selection" zf).2 (by decide)
      (by decide) (by decide) (by decide)
      ⟨("s1", ⟨["noise", "total_count"], 10, 0, none⟩), by decide, by decide⟩⟩
